import Mathlib

/-! The `gulpfile.js` build pipeline.

A shallow embedding of `gulpfile.js`: the path table, the registered tasks with
their pipelines, the watch bindings of `server` and the helper functions, together
with the parts of the task runner the file relies on (glob selection of source
files, the ordering induced by `series` and `parallel`).
-/

namespace Gulpfile

/-! ## Paths and globs

The gulpfile hands its globs to `gulp.src` and `gulp.watch`. The matcher is a library
outside the repository; the definitions below follow its rules for the pattern forms
that occur in the gulpfile: literal characters, `*`, `[^c]`, `**` and one brace
group. No call of the gulpfile sets the `dot` option. -/

/-- A file or directory name: one path segment, as a list of characters. -/
abbrev Name := List Char

/-- A path relative to the working directory, as its list of segments. -/
abbrev Path := List Name

/-- Split a path string at every `/`. -/
def splitSlash : List Char → List Name
  | [] => [[]]
  | c :: cs =>
    match splitSlash cs with
    | [] => [[c]]
    | s :: ss => if c = '/' then [] :: s :: ss else (c :: s) :: ss

/-- Segments of a path string with the empty and the `.` segments dropped, as
`path.join` / `path.normalize` do for the paths of the gulpfile (none has `..`). -/
def normalizePath (s : String) : Path :=
  (splitSlash s.toList).filter (fun n => !(n == [] || n == ['.']))

/-- One element of a segment pattern: a literal character, `*`, or a negated
one-character class such as `[^_]`. -/
inductive Tok where
  | lit (c : Char)
  | star
  | notCh (c : Char)
  deriving DecidableEq, Repr

/-- One `/`-separated part of a glob: `**` or a pattern for a single name. -/
inductive Seg where
  | globstar
  | pat (p : List Tok)
  deriving DecidableEq, Repr

/-- Tokens of one glob segment. `[^c]` is the only class form the gulpfile uses; a
brace group without a comma, as in `*.{woff}`, is not an alternation and its
characters stay literal. -/
def parseToks : List Char → List Tok
  | [] => []
  | '[' :: '^' :: c :: ']' :: rest => Tok.notCh c :: parseToks rest
  | '*' :: rest => Tok.star :: parseToks rest
  | c :: rest => Tok.lit c :: parseToks rest

/-- Parse one glob segment. -/
def parseSeg (n : Name) : Seg :=
  if n = ['*', '*'] then Seg.globstar else Seg.pat (parseToks n)

/-- Expand the one brace group with commas a glob may hold: `a{x,y}b` becomes
`axb`, `ayb`. A group without a comma is left as it is. -/
def splitComma : List Char → List (List Char)
  | [] => [[]]
  | c :: cs =>
    match splitComma cs with
    | [] => [[c]]
    | s :: ss => if c = ',' then [] :: s :: ss else (c :: s) :: ss

/-- Brace expansion of a glob string (one group, not nested). -/
def braceExpand (g : List Char) : List (List Char) :=
  let pre := g.takeWhile (fun c => c != '{')
  let rest := g.drop (pre.length + 1)
  let body := rest.takeWhile (fun c => c != '}')
  let post := rest.drop (body.length + 1)
  if pre.length < g.length ∧ body.length < rest.length ∧ ',' ∈ body then
    (splitComma body).map (fun alt => pre ++ alt ++ post)
  else [g]

/-- Does a segment hold a glob character? -/
def Seg.isMagic : Seg → Bool
  | .globstar => true
  | .pat p => p.any (fun t => match t with | .lit _ => false | _ => true)

/-- A parsed glob: the literal leading directories (the base, against which the
relative path of a selected file is taken) and the remaining segments. -/
structure Glob where
  base : Path
  segs : List Seg
  deriving DecidableEq, Repr

/-- Split parsed segments into the literal base and the rest; a glob with no glob
character has its directory as base. -/
def splitBase : List Name → Path × List Seg
  | [] => ([], [])
  | [n] => ([], [parseSeg n])
  | n :: ns =>
    if (parseSeg n).isMagic then ([], (n :: ns).map parseSeg)
    else
      let r := splitBase ns
      (n :: r.1, r.2)

/-- Parse one glob string without braces. -/
def parseGlob1 (g : List Char) : Glob :=
  let r := splitBase ((splitSlash g).filter (fun n => !(n == [] || n == ['.'])))
  { base := r.1, segs := r.2 }

/-- Parse a glob string of the gulpfile into its brace alternatives. -/
def parseGlob (g : String) : List Glob :=
  (braceExpand g.toList).map parseGlob1

/-- Match the tokens of a segment pattern against a name. -/
def matchToks : List Tok → Name → Bool
  | [], n => n.isEmpty
  | .lit c :: ts, n =>
    match n with
    | [] => false
    | x :: xs => x == c && matchToks ts xs
  | .notCh c :: ts, n =>
    match n with
    | [] => false
    | x :: xs => x != c && matchToks ts xs
  | .star :: ts, n => n.tails.any (fun s => matchToks ts s)

/-- A name that begins with a dot. -/
def dotName : Name → Bool
  | '.' :: _ => true
  | _ => false

/-- Does a pattern begin with a glob character? -/
def startsMagic : List Tok → Bool
  | .star :: _ => true
  | .notCh _ :: _ => true
  | _ => false

/-- Modelled from the spec: the glob matcher of `gulp.src`, a library outside the
repository. The spec gives the exclusion of names that begin with an underscore,
which is the `[^_]` of the globs; the rest is the rule of the library with its `dot`
option off: a pattern that begins with a glob character matches neither the empty
name nor a name that begins with a dot. -/
def segMatch (p : List Tok) (n : Name) : Bool :=
  (!startsMagic p || (!n.isEmpty && !dotName n)) && matchToks p n

/-- Modelled from the spec: the `**` of the glob matcher, a library outside the
repository. It swallows zero or more leading directory names and continues with
`k`; with the `dot` option off it swallows no name that begins with a dot. -/
def swallow (k : Path → Bool) : Path → Bool
  | [] => k []
  | n :: ns => k (n :: ns) || (!dotName n && swallow k ns)

/-- Match glob segments against the segments of a path. -/
def matchSegs : List Seg → Path → Bool
  | [], p => p.isEmpty
  | .pat q :: ps, p =>
    match p with
    | [] => false
    | n :: ns => segMatch q n && matchSegs ps ns
  | .globstar :: ps, p => swallow (fun r => matchSegs ps r) p

/-- The path of `f` relative to the base of the glob when the glob selects `f`. -/
def Glob.select (g : Glob) (f : Path) : Option Path :=
  if g.base.isPrefixOf f ∧ matchSegs g.segs (f.drop g.base.length) then
    some (f.drop g.base.length)
  else none

/-- Is the file selected by the glob string? -/
def globMatches (g : String) (f : Path) : Bool :=
  (parseGlob g).any (fun a => (a.select f).isSome)


/-! ## The path table (`paths`) -/

namespace paths

namespace templates
def src : String := "./src/pages/**/[^_]*.pug"
def dest : String := "./dest/"
def watch : String := "./src/pages/**/*.pug"
end templates

namespace styles
def src : String := "./src/static/styles/**/[^_]*.scss"
def dest : String := "./dest/assets/css/"
def watch : String := "./src/static/styles/**/*.scss"
end styles

namespace scripts
def src : String := "./src/static/scripts/"
def dest : String := "./dest/assets/js/"
end scripts

namespace images
def src : String := "./src/static/images/"
def dest : String := "./dest/assets/img/"
end images

namespace assets
namespace css
def src : String := "./src/static/assets/css/**/*.css"
def dest : String := "./dest/assets/css/"
end css
namespace js
def src : String := "./src/static/assets/js/**/*.js"
def dest : String := "./dest/assets/js/"
end js
namespace fonts
def src : String := "./src/static/assets/fonts/**/*.{woff}"
def dest : String := "./dest/assets/fonts/"
end fonts
end assets

namespace modules
def src : String := "./src/common.blocks/"
def dest : String := "./tmp/"
end modules

def tmp : String := "./tmp"

end paths

/-! ## Helper functions of the gulpfile -/

/-- A JavaScript error object as the helpers use it: the three properties read by
`errorHendler`, each a string or `undefined` (`none`). -/
structure JsError where
  name : Option String
  plugin : Option String
  message : Option String
  deriving DecidableEq, Repr

/-- String conversion applied by `+` to an operand: `undefined` prints as
`"undefined"`. -/
def jsToString : Option String → String
  | none => "undefined"
  | some s => s

/-- One call of `console.log`, with the value it was given. -/
inductive Logged where
  | text (s : String)
  | error (e : JsError)
  deriving DecidableEq, Repr

/-- The console: the calls of `console.log` so far, oldest first. -/
abbrev Console := List Logged

/-- Outcome of running a JavaScript function: it throws or it returns. -/
inductive Outcome (α : Type) where
  | returned (v : α)
  | thrown (e : JsError)
  deriving Repr

/-- `errorHendler(err)`: one `console.log` of `err.name + ' in ' + err.plugin + ' ' +
err.message`; nothing is thrown and nothing is returned. -/
def errorHendler (err : JsError) (out : Console) : Outcome Unit × Console :=
  (Outcome.returned (),
   out ++ [Logged.text
     (jsToString err.name ++ " in " ++ jsToString err.plugin ++ " " ++ jsToString err.message)])

/-- A JavaScript value as `JSON.parse` can return it, numbers kept as their text. -/
inductive JsValue where
  | null
  | bool (b : Bool)
  | number (text : String)
  | str (s : String)
  | array (xs : List JsValue)
  | object (fields : List (String × JsValue))

/-- The two library calls of `getData`: `fs.readFileSync(file, 'utf8')` and
`JSON.parse`, each of which returns or throws. -/
structure Env where
  readFileSync : String → Except JsError String
  jsonParse : String → Except JsError JsValue

/-- `getData(file)`: the `try` block returns `JSON.parse(fs.readFileSync(file,
'utf8'))`; the `catch` block logs the error, after which `false` is returned. -/
def getData (env : Env) (file : String) (out : Console) : Outcome JsValue × Console :=
  match (env.readFileSync file >>= env.jsonParse) with
  | Except.ok v => (Outcome.returned v, out)
  | Except.error er => (Outcome.returned (JsValue.bool false), out ++ [Logged.error er])

/-! ## Tasks -/

/-- Options object given to `plumber`; `none` stands for an absent `errorHandler`. -/
structure PlumberOptions where
  errorHandler : Option (JsError → Console → Outcome Unit × Console)

namespace options
/-- The shared `options.plumber`. -/
def plumber : PlumberOptions := { errorHandler := some errorHendler }
end options

/-- One `.pipe(...)` of a task. The `data` option of `pug` is the call
`getData(dataFile)`. -/
inductive Stage where
  | cached (key : String)
  | plumber (o : PlumberOptions)
  | remember (key : String)
  | concat (fileName : String)
  | sass
  | pug (pretty : Bool) (dataFile : String)
  | mergejson (fileName : String)
  | include
  | uglify
  | rename (suffix : String)
  | dest (dir : String)
  | bsStream (pattern : String)

/-- How a task function tells the task runner that it is finished. -/
inductive Signal where
  /-- the function returns its stream: finished when the stream has ended -/
  | returnsStream
  /-- the function returns a promise: finished when it resolves -/
  | returnsPromise
  /-- the function calls `cb()` before it returns, the stream is not returned -/
  | callsBack
  /-- neither a return value nor a callback -/
  | silent
  deriving DecidableEq, Repr

/-- The body of a task function. -/
inductive Body where
  /-- `gulp.src(globs, {since: ...}) .pipe(...) ...`; `since` tells whether the
  `since: gulp.lastRun(...)` option is given -/
  | stream (globs : List String) (since : Bool) (stages : List Stage) (sig : Signal)
  /-- `del(targets)`, returned -/
  | del (targets : List String)
  /-- the body of `server`: `bs.init` and the `gulp.watch` calls -/
  | server

/-- The signal of a task body. -/
def Body.signal : Body → Signal
  | .stream _ _ _ s => s
  | .del _ => Signal.returnsPromise
  | .server => Signal.silent

/-- An argument list of `gulp.series` / `gulp.parallel`: a task name, a function
given directly, or the result of a nested call. -/
inductive Composed where
  | task (name : String)
  | fn (name : String)
  | series (xs : List Composed)
  | parallel (xs : List Composed)

/-- What `gulp.task(name, ...)` registers: a function or a composition. -/
inductive Registered where
  | body (b : Body)
  | composed (c : Composed)

/-- The functions of the gulpfile that are passed by reference to `gulp.series`. -/
def functions : List (String × Body) :=
  [("clean", Body.del ["dest", "tmp"])]

/-- The calls of `gulp.task`, in the order of the file. -/
def registry : List (String × Registered) :=
  [ ("combine-modules-styles", .body (.stream
      [paths.modules.src ++ "**/[^_]*.scss"] false
      [.cached "modules-styles", .plumber options.plumber, .remember "modules-styles",
       .concat "modules.scss", .dest paths.modules.dest]
      .returnsStream)),
    ("compile-styles", .body (.stream
      [paths.styles.src, paths.modules.dest ++ "modules.scss"] false
      [.plumber options.plumber, .sass, .dest paths.styles.dest, .bsStream "**/*.css"]
      .callsBack)),
    ("build-css", .composed (.series [.task "combine-modules-styles", .task "compile-styles"])),
    ("combine-modules-data", .body (.stream
      [paths.modules.src ++ "**/[^_]*.json"] false
      [.plumber options.plumber, .mergejson "modules.json", .dest paths.modules.dest]
      .returnsStream)),
    ("compile-pages", .body (.stream
      [paths.templates.src] false
      [.plumber options.plumber, .pug true "./tmp/modules.json", .dest paths.templates.dest]
      .callsBack)),
    ("build-html", .composed (.series [.task "combine-modules-data", .task "compile-pages"])),
    ("combine-modules-scripts", .body (.stream
      [paths.modules.src ++ "**/[^_]*.js"] false
      [.plumber options.plumber, .concat "modules.js", .dest paths.modules.dest]
      .returnsStream)),
    ("compile-scripts", .body (.stream
      [paths.scripts.src ++ "**/[^_]*.js"] false
      [.cached "compile-scripts", .plumber options.plumber, .include, .dest paths.scripts.dest,
       .uglify, .rename ".min", .dest paths.scripts.dest, .bsStream "**/*.js"]
      .callsBack)),
    ("build-js", .composed (.series [.task "combine-modules-scripts", .task "compile-scripts"])),
    ("copy-images", .body (.stream
      [paths.images.src ++ "**/[^_]*.{jpg,gif,svg,png}"] true
      [.dest paths.images.dest]
      .returnsStream)),
    ("copy-assets-css", .body (.stream
      [paths.assets.css.src] true [.dest paths.assets.css.dest] .callsBack)),
    ("copy-assets-js", .body (.stream
      [paths.assets.js.src] true [.dest paths.assets.js.dest] .callsBack)),
    ("copy-assets-fonts", .body (.stream
      [paths.assets.fonts.src] true [.dest paths.assets.fonts.dest] .callsBack)),
    ("copy-assets", .composed (.parallel
      [.task "copy-assets-css", .task "copy-assets-js", .task "copy-assets-fonts"])),
    ("server", .body .server),
    ("build", .composed (.parallel
      [.task "build-html", .task "build-css", .task "build-js", .task "copy-images",
       .task "copy-assets"])),
    ("default", .composed (.series [.fn "clean", .task "build", .task "server"])) ]

/-- What a `gulp.watch` call does on a change: run a composition, or call the
function registered with `.on('change', ...)`. -/
inductive WatchAction where
  | run (c : Composed)
  | onChange (fn : String)

/-- One `gulp.watch` call of `server`. -/
structure Watch where
  glob : String
  action : WatchAction

/-- The `gulp.watch` calls in the body of `server`, in the order of the file. -/
def watches : List Watch :=
  [ ⟨paths.modules.src ++ "**/*.scss", .run (.parallel [.task "build-css"])⟩,
    ⟨paths.modules.src ++ "**/*.pug", .run (.parallel [.task "build-html"])⟩,
    ⟨paths.modules.src ++ "**/*.js", .run (.parallel [.task "build-js"])⟩,
    ⟨paths.styles.watch, .run (.parallel [.task "compile-styles"])⟩,
    ⟨paths.templates.watch, .run (.parallel [.task "compile-pages"])⟩,
    ⟨paths.scripts.src ++ "**/*.js", .run (.parallel [.task "compile-scripts"])⟩,
    ⟨paths.images.src ++ "**/*", .run (.parallel [.task "copy-images"])⟩,
    ⟨paths.templates.dest ++ "**/*.html", .onChange "reload"⟩ ]

/-- Look a name up in an association list. -/
def lookup {β : Type} (name : String) : List (String × β) → Option β
  | [] => none
  | (k, v) :: rest => if k = name then some v else lookup name rest

/-! ## Files through a pipeline -/

/-- The extension of a name as `path.extname` finds it: the part from the last dot
on, empty when the name has no dot or only a leading one, and for the name `..`. -/
def extname (n : Name) : Name :=
  let tail := (n.reverse.takeWhile (fun c => c != '.')).reverse
  if n = ['.', '.'] then []
  else if tail.length + 1 < n.length then n.drop (n.length - (tail.length + 1))
  else []

/-- The name without its extension. -/
def stem (n : Name) : Name :=
  n.take (n.length - (extname n).length)

/-- `replace-ext`: the name with its extension replaced. -/
def replaceExt (ext : Name) (n : Name) : Name :=
  stem n ++ ext

/-- `gulp-rename` with a `suffix`: the suffix goes between stem and extension. -/
def addSuffix (suffix : Name) (n : Name) : Name :=
  stem n ++ suffix ++ extname n

/-- Apply a function to the last segment of a path. -/
def mapLast (f : Name → Name) : Path → Path
  | [] => []
  | [n] => [f n]
  | n :: ns => n :: mapLast f ns

/-- Does the last segment of the path begin with an underscore? -/
def isPartial (p : Path) : Bool :=
  match p.getLast? with
  | some ('_' :: _) => true
  | _ => false

/-- The files a list of globs selects in a tree, each as its path relative to the
base of its glob (the `relative` of the vinyl file). -/
def src (globs : List String) (tree : List Path) : List Path :=
  globs.flatMap (fun g => (parseGlob g).flatMap (fun a => tree.filterMap a.select))

/-- Modelled from the spec: the plugins piped by the tasks, libraries outside the
repository, as far as the paths of the files go. Each aggregating plugin (`concat`,
`mergejson`) turns the files it receives into one file of the given name, `sass`
drops partials and names its output `.css`, `pug` names its output `.html`, `rename`
puts the suffix before the extension, `dest` writes each file below the given
directory and passes it on. `all` are the files first selected, which `remember`
puts back; `fresh` tells which files pass a `cached` filter in this run. The result
is the paths left in the stream and the paths written. -/
def Stage.run (all : List Path) (fresh : Path → Bool) : Stage → List Path → List Path × List Path
  | .cached _, fs => (fs.filter fresh, [])
  | .remember _, _ => (all, [])
  | .concat name, fs => (if fs.isEmpty then [] else [[name.toList]], [])
  | .mergejson name, fs => (if fs.isEmpty then [] else [[name.toList]], [])
  | .sass, fs => ((fs.filter (fun f => !isPartial f)).map (mapLast (replaceExt ".css".toList)), [])
  | .pug _ _, fs => (fs.map (mapLast (replaceExt ".html".toList)), [])
  | .rename suffix, fs => (fs.map (mapLast (addSuffix suffix.toList)), [])
  | .dest dir, fs => (fs, fs.map (fun f => normalizePath dir ++ f))
  | .plumber _, fs => (fs, [])
  | .include, fs => (fs, [])
  | .uglify, fs => (fs, [])
  | .bsStream _, fs => (fs, [])

/-- The paths a chain of stages writes, given the files that enter it. -/
def runStages (all : List Path) (fresh : Path → Bool) : List Stage → List Path → List Path
  | [], _ => []
  | st :: rest, fs =>
    let r := st.run all fresh fs
    r.2 ++ runStages all fresh rest r.1

/-- The paths a task body writes when it runs on a tree of files. `fresh` tells which
source files pass the `since` and `cached` filters of the run (all of them in a
first run). -/
def Body.written (tree : List Path) (fresh : Path → Bool) : Body → List Path
  | .stream globs since stages _ =>
    let all := src globs tree
    runStages all fresh stages (if since then all.filter fresh else all)
  | .del _ => []
  | .server => []

/-! ## Resolving compositions -/

/-- A composition with its names resolved: a tree of task functions, each with its
name and its completion signal. -/
inductive Exec where
  | leaf (name : String) (sig : Signal)
  | series (a b : Exec)
  | parallel (a b : Exec)
  | idle
  deriving DecidableEq, Repr

/-- Fold resolved arguments of `gulp.series` from the right. -/
def seriesAll : List Exec → Exec
  | [] => Exec.idle
  | [x] => x
  | x :: xs => Exec.series x (seriesAll xs)

/-- Fold resolved arguments of `gulp.parallel` from the right. -/
def parallelAll : List Exec → Exec
  | [] => Exec.idle
  | [x] => x
  | x :: xs => Exec.parallel x (parallelAll xs)

/-- Resolve each element of a list, failing when one fails. -/
def resolveAll (f : Composed → Option Exec) : List Composed → Option (List Exec)
  | [] => some []
  | c :: cs =>
    match f c, resolveAll f cs with
    | some x, some xs => some (x :: xs)
    | _, _ => none

/-- Resolve the names of a composition against the registered tasks and functions;
names are looked up when the composition runs, `fuel` bounds the nesting. -/
def resolve (reg : List (String × Registered)) (fns : List (String × Body)) :
    Nat → Composed → Option Exec
  | 0, _ => none
  | k + 1, .task n =>
    match lookup n reg with
    | some (.body b) => some (Exec.leaf n b.signal)
    | some (.composed c) => resolve reg fns k c
    | none => none
  | _ + 1, .fn n => (lookup n fns).map (fun b => Exec.leaf n b.signal)
  | k + 1, .series xs => (resolveAll (resolve reg fns k) xs).map seriesAll
  | k + 1, .parallel xs => (resolveAll (resolve reg fns k) xs).map parallelAll

/-- The resolved form of a registered task of the gulpfile. -/
def exec (name : String) : Option Exec :=
  resolve registry functions 8 (Composed.task name)

/-- Names of the task functions in a resolved composition. -/
def Exec.leaves : Exec → List String
  | .leaf n _ => [n]
  | .series a b => a.leaves ++ b.leaves
  | .parallel a b => a.leaves ++ b.leaves
  | .idle => []

/-- The task functions a composition runs, by name (empty when it does not resolve). -/
def runs (c : Composed) : List String :=
  match resolve registry functions 8 c with
  | some x => x.leaves
  | none => []

/-- The paths a list of task functions writes when they run one after the other:
each finds the files of the tree and those written before it. -/
def writtenBy (fresh : Path → Bool) : List String → List Path → List Path
  | [], _ => []
  | n :: rest, tree =>
    let w := match lookup n registry with
      | some (.body b) => b.written tree fresh
      | _ => []
    w ++ writtenBy fresh rest (tree ++ w)

/-- The paths a registered task writes in a tree: those of its task functions, taken
in the order of the composition (for a series, the order in which they run). -/
def written (name : String) (tree : List Path) (fresh : Path → Bool) : List Path :=
  writtenBy fresh (runs (Composed.task name)) tree

/-! ## Ordering of a run

`gulp.series` and `gulp.parallel` belong to the task runner, a library outside the
repository. Their contract: `series` starts an argument when the one before it has
signalled completion, `parallel` starts all its arguments and is complete when each
of them is; a task function that returns its stream (or a promise) has signalled
completion when the stream has ended (the promise has resolved), one that calls
`cb()` has signalled it at the call. -/

/-- The moments of a task function in a run: it starts, its work on the file system
(the writes of `gulp.dest`, the deletions of `del`) is finished, and it signals
completion to the task runner. -/
inductive Phase where
  | start
  | flushed
  | done
  deriving DecidableEq, Repr

/-- An event of a run: a moment of a named task function. -/
structure Event where
  task : String
  phase : Phase
  deriving DecidableEq, Repr

/-- Modelled from the spec: the completion rule of the task runner, a library
outside the repository ("the orchestrator waits for completion signals"). The
events of a task function, in the order its signal forces: a returned stream or
promise completes the task when its work has ended; `cb()` is called in the task
function itself, before any of the asynchronous writes of its stream; the body of
`server` writes nothing and never signals completion. -/
def leafEvents (n : String) : Signal → List Event
  | .returnsStream => [⟨n, .start⟩, ⟨n, .flushed⟩, ⟨n, .done⟩]
  | .returnsPromise => [⟨n, .start⟩, ⟨n, .flushed⟩, ⟨n, .done⟩]
  | .callsBack => [⟨n, .start⟩, ⟨n, .done⟩, ⟨n, .flushed⟩]
  | .silent => [⟨n, .start⟩]

/-- Can the composition signal completion? -/
def Exec.completes : Exec → Bool
  | .leaf _ s => s != Signal.silent
  | .series a b => a.completes && b.completes
  | .parallel a b => a.completes && b.completes
  | .idle => true

/-- All events of a run of the composition; what follows, in a series, an argument
that never completes does not run. -/
def Exec.events : Exec → List Event
  | .leaf n s => leafEvents n s
  | .series a b => a.events ++ (if a.completes then b.events else [])
  | .parallel a b => a.events ++ b.events
  | .idle => []

/-- The events with which the composition starts. -/
def Exec.firsts : Exec → List Event
  | .leaf n _ => [⟨n, .start⟩]
  | .series a b => if a.firsts.isEmpty then b.firsts else a.firsts
  | .parallel a b => a.firsts ++ b.firsts
  | .idle => []

/-- The completion signals the composition waits for before it is complete. -/
def Exec.lasts : Exec → List Event
  | .leaf n s => if s = Signal.silent then [] else [⟨n, .done⟩]
  | .series a b => if b.firsts.isEmpty then a.lasts else b.lasts
  | .parallel a b => a.lasts ++ b.lasts
  | .idle => []

/-- Consecutive pairs of a list. -/
def chain : List Event → List (Event × Event)
  | a :: b :: rest => (a, b) :: chain (b :: rest)
  | _ => []

/-- Modelled from the spec: the two composition primitives of the task runner, a
library outside the repository. The pairs `(e, e')` of events such that `e` comes
before `e'` in every run: the order inside each task function, and for a series the
completion signals of an argument before the starts of the next; `parallel` adds
no pair between its arguments. -/
def Exec.order : Exec → List (Event × Event)
  | .leaf n s => chain (leafEvents n s)
  | .series a b =>
    a.order ++ (if a.completes then a.lasts.product b.firsts ++ b.order else [])
  | .parallel a b => a.order ++ b.order
  | .idle => []

/-- Position of an event in a trace. -/
def pos (tr : List Event) (e : Event) : Nat := tr.indexOf e

/-- In the trace, `a` occurs and `b` does not occur before it. -/
def before (tr : List Event) (a b : Event) : Bool :=
  decide (a ∈ tr) && decide (pos tr a < pos tr b)

/-- A trace is a run of the composition when it holds each event of the composition
once and nothing else, in an order that respects `order`. -/
def isRun (x : Exec) (tr : List Event) : Bool :=
  tr.isPerm x.events && x.order.all (fun e => before tr e.1 e.2)

/-- The three kinds of the build: composite task, aggregator, compile step. -/
def kinds : List (String × String × String) :=
  [ ("build-css", "combine-modules-styles", "compile-styles"),
    ("build-html", "combine-modules-data", "compile-pages"),
    ("build-js", "combine-modules-scripts", "compile-scripts") ]

/-- Is `b` reached from `a` along at most `fuel` pairs of `es`? -/
def reach (es : List (Event × Event)) : Nat → Event → Event → Bool
  | 0, _, _ => false
  | k + 1, a, b => es.any (fun e => e.1 == a && (e.2 == b || reach es k e.2 b))

/-- Does the order of `x` hold a pair from an event of the task functions `as` to
one of the task functions `bs`? -/
def ordersAcross (x : Exec) (as bs : List String) : Bool :=
  x.order.any (fun e => decide (e.1.task ∈ as) && decide (e.2.task ∈ bs))

/-- The tasks that `build` runs in parallel, as the gulpfile lists them. -/
def buildTasks : List String :=
  ["build-html", "build-css", "build-js", "copy-images", "copy-assets"]

/-- The tasks that `copy-assets` runs in parallel. -/
def copyTasks : List String :=
  ["copy-assets-css", "copy-assets-js", "copy-assets-fonts"]

/-- Does the action of a watch binding run the function or task function `f`? -/
def WatchAction.uses (f : String) : WatchAction → Bool
  | .run c => decide (f ∈ runs c)
  | .onChange g => g == f

/-- A run of `default` in which `server` starts while the writes of
`compile-styles` are still under way. -/
def earlyServerRun : List Event :=
  [ ⟨"clean", .start⟩, ⟨"clean", .flushed⟩, ⟨"clean", .done⟩,
    ⟨"combine-modules-data", .start⟩, ⟨"combine-modules-styles", .start⟩,
    ⟨"combine-modules-scripts", .start⟩, ⟨"copy-images", .start⟩,
    ⟨"copy-assets-css", .start⟩, ⟨"copy-assets-css", .done⟩,
    ⟨"copy-assets-js", .start⟩, ⟨"copy-assets-js", .done⟩,
    ⟨"copy-assets-fonts", .start⟩, ⟨"copy-assets-fonts", .done⟩,
    ⟨"combine-modules-data", .flushed⟩, ⟨"combine-modules-data", .done⟩,
    ⟨"compile-pages", .start⟩, ⟨"compile-pages", .done⟩,
    ⟨"combine-modules-styles", .flushed⟩, ⟨"combine-modules-styles", .done⟩,
    ⟨"compile-styles", .start⟩, ⟨"compile-styles", .done⟩,
    ⟨"combine-modules-scripts", .flushed⟩, ⟨"combine-modules-scripts", .done⟩,
    ⟨"compile-scripts", .start⟩, ⟨"compile-scripts", .done⟩,
    ⟨"copy-images", .flushed⟩, ⟨"copy-images", .done⟩,
    ⟨"server", .start⟩,
    ⟨"copy-assets-css", .flushed⟩, ⟨"copy-assets-js", .flushed⟩,
    ⟨"copy-assets-fonts", .flushed⟩, ⟨"compile-pages", .flushed⟩,
    ⟨"compile-styles", .flushed⟩, ⟨"compile-scripts", .flushed⟩ ]

/-- Options object given to `pug`. -/
structure PugOptions where
  pretty : Bool
  data : JsValue

/-- Evaluate the arguments of the stages of a task function, in order, as the call
of the function does when it builds its pipeline. Only the options of `pug` run
code of the gulpfile, the call of `getData`; a throw there would end the call
before the pipeline is built. The result lists the options that reach `pug`. -/
def stageArgs (env : Env) : List Stage → Console → Outcome (List PugOptions) × Console
  | [], out => (Outcome.returned [], out)
  | .pug pretty file :: rest, out =>
    match getData env file out with
    | (Outcome.thrown e, out₁) => (Outcome.thrown e, out₁)
    | (Outcome.returned v, out₁) =>
      match stageArgs env rest out₁ with
      | (Outcome.returned os, out₂) => (Outcome.returned (⟨pretty, v⟩ :: os), out₂)
      | (Outcome.thrown e, out₂) => (Outcome.thrown e, out₂)
  | _ :: rest, out => stageArgs env rest out

/-- The stages of a registered task function (none for the other bodies). -/
def stagesOf (name : String) : List Stage :=
  match lookup name registry with
  | some (.body (.stream _ _ stages _)) => stages
  | _ => []

/-- The source globs of a registered task function. -/
def globsOf (name : String) : List String :=
  match lookup name registry with
  | some (.body (.stream globs _ _ _)) => globs
  | _ => []

/-- The options given to `plumber` in a list of stages. -/
def plumbers : List Stage → List PlumberOptions
  | [] => []
  | .plumber o :: rest => o :: plumbers rest
  | _ :: rest => plumbers rest

/-- The files named by the `data` option of `pug` in a list of stages. -/
def dataFiles : List Stage → List String
  | [] => []
  | .pug _ file :: rest => file :: dataFiles rest
  | _ :: rest => dataFiles rest

/-- Names of the registered tasks whose pipeline has a `plumber` stage. -/
def guarded : List String :=
  (registry.map Prod.fst).filter (fun n => !(plumbers (stagesOf n)).isEmpty)

/-- An environment in which no file can be read. -/
def noFiles : Env :=
  { readFileSync := fun _ => Except.error ⟨some "Error", none, some "ENOENT"⟩,
    jsonParse := fun _ => Except.ok JsValue.null }

/-- The aggregators with the merged file each concatenates or merges into. -/
def aggregators : List (String × String) :=
  [ ("combine-modules-styles", "modules.scss"),
    ("combine-modules-scripts", "modules.js"),
    ("combine-modules-data", "modules.json") ]

/-- The aggregators with the extension of the fragments each merges. -/
def aggregatorExt : List (String × String) :=
  [ ("combine-modules-styles", ".scss"),
    ("combine-modules-data", ".json"),
    ("combine-modules-scripts", ".js") ]

/-- Is the file selected by a source glob of the registered task function? -/
def selects (task : String) (f : Path) : Bool :=
  (globsOf task).any (fun g => globMatches g f)

/-- The components directory, `paths.modules.src`, as a path. -/
def componentsDir : Path := normalizePath paths.modules.src

theorem before_of_isRun {x : Exec} {tr : List Event} (h : isRun x tr = true)
    {a b : Event} (he : (a, b) ∈ x.order) : before tr a b = true := by
  unfold isRun at h
  rw [Bool.and_eq_true, List.all_eq_true] at h
  exact h.2 (a, b) he

theorem before_trans {tr : List Event} {a b c : Event} (h₁ : before tr a b = true)
    (h₂ : before tr b c = true) : before tr a c = true := by
  unfold before at *
  simp only [Bool.and_eq_true, decide_eq_true_eq] at *
  exact ⟨h₁.1, lt_trans h₁.2 h₂.2⟩

theorem before_of_reach {x : Exec} {tr : List Event} (h : isRun x tr = true) :
    ∀ (k : Nat) (a b : Event), reach x.order k a b = true → before tr a b = true := by
  intro k
  induction k with
  | zero => intro a b hr; simp [reach] at hr
  | succ k ih =>
    intro a b hr
    simp only [reach, List.any_eq_true, Bool.and_eq_true, Bool.or_eq_true, beq_iff_eq] at hr
    obtain ⟨e, he, h1, h2⟩ := hr
    have hab : before tr e.1 e.2 = true := before_of_isRun h (a := e.1) (b := e.2) he
    rw [h1] at hab
    rcases h2 with h2 | h2
    · rw [h2] at hab; exact hab
    · exact before_trans hab (ih _ _ h2)

/-! ## The task graph -/

/-- C1: each of `build-css`, `build-html`, `build-js` is registered as the series of
its aggregator and its compile step, the aggregator returning its stream; in every
run of the composite (alone, inside `build` or inside `default`) the aggregator's
writes end before it signals completion, and the compile step starts after that
signal. -/
theorem aggregate_then_compile (k : String × String × String) (hk : k ∈ kinds)
    (top : String) (htop : top ∈ [k.1, "build", "default"])
    (x : Exec) (hx : exec top = some x) (tr : List Event) (hrun : isRun x tr = true) :
    lookup k.1 registry = some (.composed (.series [.task k.2.1, .task k.2.2])) ∧
    exec k.1 = some (.series (.leaf k.2.1 .returnsStream) (.leaf k.2.2 .callsBack)) ∧
    before tr ⟨k.2.1, .start⟩ ⟨k.2.1, .flushed⟩ = true ∧
    before tr ⟨k.2.1, .flushed⟩ ⟨k.2.1, .done⟩ = true ∧
    before tr ⟨k.2.1, .done⟩ ⟨k.2.2, .start⟩ = true := by
  have hreg : lookup k.1 registry = some (.composed (.series [.task k.2.1, .task k.2.2])) := by
    simp only [kinds, List.mem_cons, List.mem_singleton, List.not_mem_nil, or_false] at hk
    rcases hk with rfl | rfl | rfl <;> rfl
  have hedges : ∀ k ∈ kinds, ∀ top ∈ [k.1, "build", "default"], ∀ x, exec top = some x →
      exec k.1 = some (.series (.leaf k.2.1 .returnsStream) (.leaf k.2.2 .callsBack)) ∧
      ((⟨k.2.1, .start⟩, ⟨k.2.1, .flushed⟩) : Event × Event) ∈ x.order ∧
      ((⟨k.2.1, .flushed⟩, ⟨k.2.1, .done⟩) : Event × Event) ∈ x.order ∧
      ((⟨k.2.1, .done⟩, ⟨k.2.2, .start⟩) : Event × Event) ∈ x.order := by
    decide
  obtain ⟨h0, h1, h2, h3⟩ := hedges k hk top htop x hx
  exact ⟨hreg, h0, before_of_isRun hrun h1, before_of_isRun hrun h2, before_of_isRun hrun h3⟩

theorem aggregate_then_compile_witness :
    isRun (.series (.leaf "combine-modules-styles" .returnsStream)
        (.leaf "compile-styles" .callsBack))
      [⟨"combine-modules-styles", .start⟩, ⟨"combine-modules-styles", .flushed⟩,
       ⟨"combine-modules-styles", .done⟩, ⟨"compile-styles", .start⟩,
       ⟨"compile-styles", .done⟩, ⟨"compile-styles", .flushed⟩] = true ∧
    before
      [⟨"combine-modules-styles", .start⟩, ⟨"combine-modules-styles", .flushed⟩,
       ⟨"combine-modules-styles", .done⟩, ⟨"compile-styles", .start⟩,
       ⟨"compile-styles", .done⟩, ⟨"compile-styles", .flushed⟩]
      ⟨"combine-modules-styles", .done⟩ ⟨"compile-styles", .start⟩ = true :=
  ⟨by decide,
   (aggregate_then_compile ("build-css", "combine-modules-styles", "compile-styles")
      (by decide) "build-css" (by decide) _ rfl _ (by decide)).2.2.2.2⟩

/-- C2 (the code at the failing input): `default` has a run in which `server`
starts before the writes of `compile-styles`, a task of `build`, have finished:
`build` has signalled completion with writes still under way. -/
theorem server_may_start_before_build_writes :
    ∃ x, exec "default" = some x ∧ isRun x earlyServerRun = true ∧
      before earlyServerRun ⟨"compile-styles", .done⟩ ⟨"server", .start⟩ = true ∧
      before earlyServerRun ⟨"server", .start⟩ ⟨"compile-styles", .flushed⟩ = true :=
  ⟨_, rfl, by decide, by decide, by decide⟩

/-- C3: `default` is the series `clean`, `build`, `server`; `clean` deletes `dest`
and `tmp`; in every run of `default` the deletions of `clean` end before it signals
completion, every task function of `build` starts after that signal and has
signalled completion before `server` starts; `clean` is run by no registered task
other than `default` and by no watch binding. -/
theorem default_is_clean_build_server (x : Exec) (hx : exec "default" = some x)
    (tr : List Event) (hrun : isRun x tr = true) :
    lookup "default" registry
      = some (.composed (.series [.fn "clean", .task "build", .task "server"])) ∧
    lookup "clean" functions = some (.del ["dest", "tmp"]) ∧
    before tr ⟨"clean", .flushed⟩ ⟨"clean", .done⟩ = true ∧
    (∀ t ∈ runs (.task "build"),
      before tr ⟨"clean", .done⟩ ⟨t, .start⟩ = true ∧
      before tr ⟨t, .done⟩ ⟨"server", .start⟩ = true) ∧
    (∀ e ∈ registry, e.1 ≠ "default" → "clean" ∉ runs (.task e.1)) ∧
    (∀ w ∈ watches, w.action.uses "clean" = false) := by
  have hr : ∀ x, exec "default" = some x →
      reach x.order 1 ⟨"clean", .flushed⟩ ⟨"clean", .done⟩ = true ∧
      ∀ t ∈ runs (.task "build"),
        reach x.order 6 ⟨"clean", .done⟩ ⟨t, .start⟩ = true ∧
        reach x.order 6 ⟨t, .done⟩ ⟨"server", .start⟩ = true := by
    decide
  obtain ⟨h1, h2⟩ := hr x hx
  refine ⟨rfl, rfl, before_of_reach hrun _ _ _ h1, ?_, by decide, by decide⟩
  intro t ht
  exact ⟨before_of_reach hrun _ _ _ (h2 t ht).1, before_of_reach hrun _ _ _ (h2 t ht).2⟩

theorem default_is_clean_build_server_witness :
    isRun (.series (.leaf "clean" .returnsPromise)
      (.series (.parallel
        (.series (.leaf "combine-modules-data" .returnsStream) (.leaf "compile-pages" .callsBack))
        (.parallel
          (.series (.leaf "combine-modules-styles" .returnsStream)
            (.leaf "compile-styles" .callsBack))
          (.parallel
            (.series (.leaf "combine-modules-scripts" .returnsStream)
              (.leaf "compile-scripts" .callsBack))
            (.parallel (.leaf "copy-images" .returnsStream)
              (.parallel (.leaf "copy-assets-css" .callsBack)
                (.parallel (.leaf "copy-assets-js" .callsBack)
                  (.leaf "copy-assets-fonts" .callsBack)))))))
        (.leaf "server" .silent))) earlyServerRun = true ∧
    before earlyServerRun ⟨"clean", .flushed⟩ ⟨"clean", .done⟩ = true :=
  ⟨by decide, (default_is_clean_build_server _ rfl earlyServerRun (by decide)).2.2.1⟩

/-- C4: `build` is registered as the parallel composition of the five tasks
`build-html`, `build-css`, `build-js`, `copy-images`, `copy-assets`, and
`copy-assets` as that of `copy-assets-css`, `copy-assets-js`, `copy-assets-fonts`;
between the task functions of two different members no order is imposed. -/
theorem build_is_parallel (a b : String) (hab : a ≠ b) :
    lookup "build" registry = some (.composed (.parallel (buildTasks.map Composed.task))) ∧
    buildTasks.Perm ["build-css", "build-html", "build-js", "copy-images", "copy-assets"] ∧
    lookup "copy-assets" registry
      = some (.composed (.parallel (copyTasks.map Composed.task))) ∧
    copyTasks = ["copy-assets-css", "copy-assets-js", "copy-assets-fonts"] ∧
    (a ∈ buildTasks → b ∈ buildTasks → ∀ x, exec "build" = some x →
      ordersAcross x (runs (.task a)) (runs (.task b)) = false) ∧
    (a ∈ copyTasks → b ∈ copyTasks → ∀ x, exec "copy-assets" = some x →
      ordersAcross x (runs (.task a)) (runs (.task b)) = false) := by
  have h1 : ∀ a ∈ buildTasks, ∀ b ∈ buildTasks, a ≠ b → ∀ x, exec "build" = some x →
      ordersAcross x (runs (.task a)) (runs (.task b)) = false := by decide
  have h2 : ∀ a ∈ copyTasks, ∀ b ∈ copyTasks, a ≠ b → ∀ x, exec "copy-assets" = some x →
      ordersAcross x (runs (.task a)) (runs (.task b)) = false := by decide
  exact ⟨rfl, by decide, rfl, rfl, fun ha hb => h1 a ha b hb hab, fun ha hb => h2 a ha b hb hab⟩

theorem build_is_parallel_witness :
    "build-css" ≠ "copy-assets" ∧
    (∀ x, exec "build" = some x →
      ordersAcross x (runs (.task "build-css")) (runs (.task "copy-assets")) = false) :=
  ⟨by decide,
   fun x hx => (build_is_parallel "build-css" "copy-assets" (by decide)).2.2.2.2.1
     (by decide) (by decide) x hx⟩

/-! ## Helpers -/

/-- C10: `errorHendler` returns without a throw after exactly one `console.log`,
whose text is `err.name`, `' in '`, `err.plugin`, a space and `err.message`
(`undefined` printing as such); the pipelines with a `plumber` stage are those of the
two style, the two template/data and the two script tasks, and each `plumber` is
given `errorHendler` as its `errorHandler`. -/
theorem errorHendler_logs_one_line (err : JsError) (out : Console) :
    (∃ line : String, errorHendler err out = (Outcome.returned (), out ++ [Logged.text line]) ∧
      line.toList = (jsToString err.name).toList ++ " in ".toList ++
        (jsToString err.plugin).toList ++ " ".toList ++ (jsToString err.message).toList ∧
      (∀ n p m, err = ⟨some n, some p, some m⟩ →
        n.toList <:+: line.toList ∧ p.toList <:+: line.toList ∧ m.toList <:+: line.toList)) ∧
    guarded = ["combine-modules-styles", "compile-styles", "combine-modules-data",
      "compile-pages", "combine-modules-scripts", "compile-scripts"] ∧
    (∀ t ∈ guarded, ∀ o ∈ plumbers (stagesOf t), o.errorHandler = some errorHendler) := by
  refine ⟨⟨_, rfl, ?_, ?_⟩, by decide, ?_⟩
  · simp [String.toList, String.data_append, List.append_assoc]
  · rintro n p m rfl
    simp only [jsToString, String.toList, String.data_append, List.append_assoc]
    refine ⟨⟨[], _, rfl⟩, ⟨n.data ++ " in ".data, " ".data ++ m.data, ?_⟩,
      ⟨n.data ++ (" in ".data ++ (p.data ++ " ".data)), [], ?_⟩⟩ <;> simp
  · have hg : guarded = ["combine-modules-styles", "compile-styles", "combine-modules-data",
      "compile-pages", "combine-modules-scripts", "compile-scripts"] := by decide
    intro t ht o ho
    rw [hg] at ht
    simp only [List.mem_cons, List.mem_singleton, List.not_mem_nil, or_false] at ht
    rcases ht with rfl | rfl | rfl | rfl | rfl | rfl <;>
      · change o ∈ [options.plumber] at ho
        simp only [List.mem_singleton] at ho
        rw [ho]; rfl

theorem errorHendler_logs_one_line_witness :
    errorHendler ⟨some "Error", some "gulp-sass", some "bad"⟩ []
      = (Outcome.returned (), [Logged.text "Error in gulp-sass bad"]) ∧
    ∀ o ∈ plumbers (stagesOf "compile-styles"), o.errorHandler = some errorHendler :=
  ⟨rfl, (errorHendler_logs_one_line ⟨some "Error", some "gulp-sass", some "bad"⟩ []).2.2
    "compile-styles" (by decide)⟩

/-- C5: `getData` always returns: the parsed value, with nothing logged, when the
file is read and its content parses; `false`, after one `console.log` of the error,
when the read or the parse throws; the call of `compile-pages` then still builds its
pipeline, with `pug` given `data: false`. -/
theorem getData_never_throws (env : Env) (file : String) (out : Console) :
    (∃ v out₁, getData env file out = (Outcome.returned v, out₁)) ∧
    (∀ s v, env.readFileSync file = Except.ok s → env.jsonParse s = Except.ok v →
      getData env file out = (Outcome.returned v, out)) ∧
    (∀ er, env.readFileSync file = Except.error er →
      getData env file out = (Outcome.returned (JsValue.bool false), out ++ [Logged.error er])) ∧
    (∀ s er, env.readFileSync file = Except.ok s → env.jsonParse s = Except.error er →
      getData env file out = (Outcome.returned (JsValue.bool false), out ++ [Logged.error er])) ∧
    dataFiles (stagesOf "compile-pages") = ["./tmp/modules.json"] ∧
    (∀ out₁, getData env "./tmp/modules.json" out = (Outcome.returned (JsValue.bool false), out₁) →
      stageArgs env (stagesOf "compile-pages") out
        = (Outcome.returned [⟨true, JsValue.bool false⟩], out₁)) := by
  refine ⟨?_, ?_, ?_, ?_, rfl, ?_⟩
  · unfold getData
    cases env.readFileSync file >>= env.jsonParse with
    | ok v => exact ⟨_, _, rfl⟩
    | error e => exact ⟨_, _, rfl⟩
  · intro s v h1 h2
    simp [getData, h1, h2, bind, Except.bind]
  · intro er h1
    simp [getData, h1, bind, Except.bind]
  · intro s er h1 h2
    simp [getData, h1, h2, bind, Except.bind]
  · intro out₁ h
    have hs : stagesOf "compile-pages" = [.plumber options.plumber,
      .pug true "./tmp/modules.json", .dest paths.templates.dest] := rfl
    rw [hs]
    simp [stageArgs, h]

theorem getData_never_throws_witness :
    noFiles.readFileSync "./tmp/modules.json"
      = Except.error ⟨some "Error", none, some "ENOENT"⟩ ∧
    getData noFiles "./tmp/modules.json" []
      = (Outcome.returned (JsValue.bool false),
         [Logged.error ⟨some "Error", none, some "ENOENT"⟩]) :=
  ⟨rfl, (getData_never_throws noFiles "./tmp/modules.json" []).2.2.1 _ rfl⟩

/-! ## Glob selection -/

theorem matchToks_lit (l : List Char) :
    ∀ s : Name, matchToks (l.map Tok.lit) s = true ↔ s = l := by
  induction l with
  | nil => intro s; cases s <;> simp [matchToks]
  | cons c l ih =>
    intro s
    cases s with
    | nil => simp [matchToks]
    | cons x xs => simp [matchToks, ih xs]

theorem matchToks_star_lit (l : List Char) (s : Name) :
    matchToks (Tok.star :: l.map Tok.lit) s = true ↔ l <:+ s := by
  simp only [matchToks, List.any_eq_true, List.mem_tails]
  constructor
  · rintro ⟨t, ht, hm⟩
    rw [(matchToks_lit l t).1 hm] at ht
    exact ht
  · intro h
    exact ⟨l, h, (matchToks_lit l l).2 rfl⟩

theorem dotName_eq_false {n : Name} : dotName n = false ↔ n.head? ≠ some '.' := by
  cases n with
  | nil => simp [dotName]
  | cons c t =>
    by_cases hc : c = '.'
    · subst hc; simp [dotName]
    · have hd : dotName (c :: t) = false := by
        unfold dotName
        split
        · rename_i heq; exact absurd (List.cons.inj heq).1 hc
        · rfl
      simp [hd, hc]

/-- A pattern `*ext` selects the names that end with `ext`, are not empty and do not
begin with a dot. -/
theorem segMatch_star_lit (l : List Char) (n : Name) :
    segMatch (Tok.star :: l.map Tok.lit) n = true ↔
      n ≠ [] ∧ dotName n = false ∧ l <:+ n := by
  unfold segMatch
  rw [Bool.and_eq_true, matchToks_star_lit]
  cases n <;> simp [startsMagic]

/-- A pattern `[^u]*ext`, where `ext` begins with a dot, selects the names that end
with `ext` and begin with a character other than `u` and the dot. -/
theorem segMatch_notCh_star_lit (u : Char) (l : List Char) (hl : l.head? = some '.')
    (n : Name) :
    segMatch (Tok.notCh u :: Tok.star :: l.map Tok.lit) n = true ↔
      l <:+ n ∧ ∃ c, n.head? = some c ∧ c ≠ u ∧ c ≠ '.' := by
  unfold segMatch
  rw [Bool.and_eq_true]
  cases n with
  | nil =>
    simp [startsMagic, matchToks]
  | cons c t =>
    have hm : matchToks (Tok.notCh u :: Tok.star :: l.map Tok.lit) (c :: t) = true ↔
        c ≠ u ∧ l <:+ t := by
      rw [← matchToks_star_lit]
      conv_lhs => unfold matchToks
      simp
    rw [hm]
    simp only [startsMagic, Bool.not_true, Bool.false_or, List.isEmpty_cons, Bool.not_false,
      Bool.true_and, Bool.not_eq_true', dotName_eq_false, List.head?_cons, ne_eq,
      Option.some.injEq, exists_eq_left']
    constructor
    · rintro ⟨hd, hu, hs⟩
      exact ⟨List.suffix_cons_iff.2 (Or.inr hs), hu, hd⟩
    · rintro ⟨hs, hu, hd⟩
      refine ⟨hd, hu, ?_⟩
      rcases List.suffix_cons_iff.1 hs with h | h
      · rw [h] at hl
        simp only [List.head?_cons, Option.some.injEq] at hl
        exact absurd hl hd
      · exact h

theorem swallow_iff (k : Path → Bool) :
    ∀ p : Path, swallow k p = true ↔
      ∃ ds r, p = ds ++ r ∧ (∀ d ∈ ds, dotName d = false) ∧ k r = true := by
  intro p
  induction p with
  | nil =>
    simp only [swallow]
    constructor
    · intro h; exact ⟨[], [], rfl, by simp, h⟩
    · rintro ⟨ds, r, h, _, hk⟩
      have hr : r = [] := (List.append_eq_nil.1 h.symm).2
      rw [hr] at hk; exact hk
  | cons n ns ih =>
    simp only [swallow, Bool.or_eq_true, Bool.and_eq_true, Bool.not_eq_true', ih]
    constructor
    · rintro (h | ⟨hn, ds, r, hp, hd, hk⟩)
      · exact ⟨[], n :: ns, rfl, by simp, h⟩
      · refine ⟨n :: ds, r, by rw [hp]; rfl, ?_, hk⟩
        intro d hd'
        rcases List.mem_cons.1 hd' with h | h
        · rw [h]; exact hn
        · exact hd d h
    · rintro ⟨ds, r, hp, hd, hk⟩
      cases ds with
      | nil =>
        left
        simp only [List.nil_append] at hp
        rw [hp]; exact hk
      | cons d ds =>
        right
        simp only [List.cons_append, List.cons.injEq] at hp
        refine ⟨?_, ds, r, hp.2, fun e he => hd e (List.mem_cons_of_mem _ he), hk⟩
        rw [hp.1]; exact hd d (List.mem_cons_self _ _)

/-- A glob `**/q` selects, below its base, the names matched by `q` in any chain of
directories none of which begins with a dot. -/
theorem matchSegs_globstar_pat (q : List Tok) (p : Path) :
    matchSegs [Seg.globstar, Seg.pat q] p = true ↔
      ∃ ds n, p = ds ++ [n] ∧ (∀ d ∈ ds, dotName d = false) ∧ segMatch q n = true := by
  have hk : ∀ r : Path, matchSegs [Seg.pat q] r = true ↔ ∃ n, r = [n] ∧ segMatch q n = true := by
    intro r
    cases r with
    | nil => simp [matchSegs]
    | cons n ns =>
      cases ns with
      | nil => simp [matchSegs]
      | cons m ms => simp [matchSegs]
  simp only [matchSegs]
  rw [swallow_iff]
  constructor
  · rintro ⟨ds, r, hp, hd, hr⟩
    obtain ⟨n, hn, hs⟩ := (hk r).1 hr
    exact ⟨ds, n, by rw [hp, hn], hd, hs⟩
  · rintro ⟨ds, n, hp, hd, hs⟩
    exact ⟨ds, [n], hp, hd, (hk [n]).2 ⟨n, rfl, hs⟩⟩

theorem select_eq_some (g : Glob) (f r : Path) :
    g.select f = some r ↔ f = g.base ++ r ∧ matchSegs g.segs r = true := by
  unfold Glob.select
  constructor
  · intro h
    split at h
    · rename_i hc
      obtain ⟨t, ht⟩ := List.isPrefixOf_iff_prefix.1 hc.1
      have hr : r = t := by
        have := Option.some.inj h
        rw [← this, ← ht, List.drop_left]
      rw [← ht, List.drop_left] at hc
      rw [hr]
      exact ⟨ht.symm, hc.2⟩
    · exact absurd h (by simp)
  · rintro ⟨hf, hm⟩
    rw [hf, List.drop_left]
    rw [if_pos ⟨List.isPrefixOf_iff_prefix.2 (List.prefix_append _ _), hm⟩]

theorem select_isSome_append (g : Glob) (r : Path) :
    (g.select (g.base ++ r)).isSome = matchSegs g.segs r := by
  unfold Glob.select
  rw [List.drop_left]
  by_cases hm : matchSegs g.segs r = true
  · rw [if_pos ⟨List.isPrefixOf_iff_prefix.2 (List.prefix_append _ _), hm⟩, hm]; rfl
  · rw [if_neg (fun h => hm h.2)]
    simp only [Bool.not_eq_true] at hm
    rw [hm]; rfl

/-- C8, as the code has it: an aggregator glob selects a file below the components
directory exactly when none of the directories on the way begins with a dot and the
file name ends with the extension of the kind and begins with a character other
than the underscore and the dot. -/
theorem aggregator_glob_selects (k : String × String) (hk : k ∈ aggregatorExt)
    (dirs : Path) (n : Name) :
    selects k.1 (componentsDir ++ dirs ++ [n]) = true ↔
      (∀ d ∈ dirs, dotName d = false) ∧ k.2.toList <:+ n ∧
        ∃ c, n.head? = some c ∧ c ≠ '_' ∧ c ≠ '.' := by
  have hsel : ∀ k ∈ aggregatorExt, ∀ f, selects k.1 f =
      ((⟨componentsDir, [Seg.globstar,
        Seg.pat (Tok.notCh '_' :: Tok.star :: k.2.toList.map Tok.lit)]⟩ : Glob).select f).isSome := by
    have hp : ∀ k ∈ aggregatorExt, (globsOf k.1).map parseGlob =
        [[⟨componentsDir, [Seg.globstar,
          Seg.pat (Tok.notCh '_' :: Tok.star :: k.2.toList.map Tok.lit)]⟩]] := by decide
    intro k hk f
    have h := hp k hk
    unfold selects globMatches
    generalize globsOf k.1 = gs at h
    cases gs with
    | nil => simp at h
    | cons g t =>
      cases t with
      | nil =>
        simp only [List.map_cons, List.map_nil, List.cons.injEq, and_true] at h
        simp [h]
      | cons g₂ t₂ => simp at h
  have hhead : ∀ k ∈ aggregatorExt, k.2.toList.head? = some '.' := by decide
  rw [hsel k hk, List.append_assoc]
  have := select_isSome_append ⟨componentsDir, [Seg.globstar,
        Seg.pat (Tok.notCh '_' :: Tok.star :: k.2.toList.map Tok.lit)]⟩ (dirs ++ [n])
  simp only at this
  rw [this, matchSegs_globstar_pat]
  constructor
  · rintro ⟨ds, m, hp, hd, hs⟩
    obtain ⟨h1, h2⟩ := List.append_inj' hp rfl
    simp only [List.cons.injEq, and_true] at h2
    rw [h1, h2]
    exact ⟨hd, (segMatch_notCh_star_lit '_' _ (hhead k hk) m).1 hs⟩
  · rintro ⟨hd, hs⟩
    exact ⟨dirs, n, rfl, hd, (segMatch_notCh_star_lit '_' _ (hhead k hk) n).2 hs⟩

theorem aggregator_glob_selects_witness :
    selects "combine-modules-styles"
      (componentsDir ++ ["button".toList] ++ ["button.scss".toList]) = true :=
  (aggregator_glob_selects ("combine-modules-styles", ".scss") (by decide)
    ["button".toList] "button.scss".toList).2 (by decide)

/-- C8 as stated fails: `button.scss` in the directory `.cache` of the components
directory ends with `.scss` and begins with `b`, and the style aggregator does not
select it. -/
theorem aggregator_glob_skips_dot_directory :
    ".scss".toList <:+ "button.scss".toList ∧
    "button.scss".toList.head? = some 'b' ∧
    selects "combine-modules-styles"
      (componentsDir ++ [".cache".toList] ++ ["button.scss".toList]) = false := by
  decide

/-- What `[^u]*ext` selects below `**`, `*ext` selects too. -/
theorem matchSegs_widen (u : Char) (l : List Char) (hl : l.head? = some '.') (r : Path)
    (h : matchSegs [Seg.globstar, Seg.pat (Tok.notCh u :: Tok.star :: l.map Tok.lit)] r = true) :
    matchSegs [Seg.globstar, Seg.pat (Tok.star :: l.map Tok.lit)] r = true := by
  obtain ⟨ds, n, hr, hd, hs⟩ := (matchSegs_globstar_pat _ r).1 h
  obtain ⟨hsuf, c, hc, _, hdot⟩ := (segMatch_notCh_star_lit u l hl n).1 hs
  refine (matchSegs_globstar_pat _ r).2 ⟨ds, n, hr, hd, (segMatch_star_lit l n).2 ⟨?_, ?_, hsuf⟩⟩
  · intro h0; rw [h0] at hc; simp at hc
  · rw [dotName_eq_false, hc]
    intro h0; exact hdot (Option.some.inj h0)

/-- Every style fragment and every script fragment that its aggregator selects is
matched by the glob of a watch binding whose task runs that aggregator. -/
theorem style_script_fragments_watched (t : String)
    (ht : t ∈ ["combine-modules-styles", "combine-modules-scripts"]) (r : Path)
    (h : selects t (componentsDir ++ r) = true) :
    ∃ w ∈ watches, globMatches w.glob (componentsDir ++ r) = true ∧ w.action.uses t = true := by
  have hsel : ∀ (g : String) (ts : List Tok),
      parseGlob g = [⟨componentsDir, [Seg.globstar, Seg.pat ts]⟩] →
      globMatches g (componentsDir ++ r) = matchSegs [Seg.globstar, Seg.pat ts] r := by
    intro g ts hg
    unfold globMatches
    rw [hg]
    simp only [List.any_cons, List.any_nil, Bool.or_false]
    exact select_isSome_append ⟨componentsDir, [Seg.globstar, Seg.pat ts]⟩ r
  simp only [List.mem_cons, List.mem_singleton, List.not_mem_nil, or_false] at ht
  rcases ht with rfl | rfl
  · have hg : globsOf "combine-modules-styles" = [paths.modules.src ++ "**/[^_]*.scss"] := rfl
    unfold selects at h
    rw [hg] at h
    simp only [List.any_cons, List.any_nil, Bool.or_false] at h
    rw [hsel _ (Tok.notCh '_' :: Tok.star :: ".scss".toList.map Tok.lit) (by decide)] at h
    refine ⟨⟨paths.modules.src ++ "**/*.scss", .run (.parallel [.task "build-css"])⟩,
      by simp [watches], ?_, by decide⟩
    show globMatches (paths.modules.src ++ "**/*.scss") (componentsDir ++ r) = true
    rw [hsel _ (Tok.star :: ".scss".toList.map Tok.lit) (by decide)]
    exact matchSegs_widen '_' _ (by decide) r h
  · have hg : globsOf "combine-modules-scripts" = [paths.modules.src ++ "**/[^_]*.js"] := rfl
    unfold selects at h
    rw [hg] at h
    simp only [List.any_cons, List.any_nil, Bool.or_false] at h
    rw [hsel _ (Tok.notCh '_' :: Tok.star :: ".js".toList.map Tok.lit) (by decide)] at h
    refine ⟨⟨paths.modules.src ++ "**/*.js", .run (.parallel [.task "build-js"])⟩,
      by simp [watches], ?_, by decide⟩
    show globMatches (paths.modules.src ++ "**/*.js") (componentsDir ++ r) = true
    rw [hsel _ (Tok.star :: ".js".toList.map Tok.lit) (by decide)]
    exact matchSegs_widen '_' _ (by decide) r h

/-- C7 (the code at the failing input): the data aggregator selects the fragment
`src/common.blocks/header/header.json`, and the glob of no watch binding of `server`
matches that path, so a change of it runs nothing. -/
theorem data_fragment_is_not_watched :
    selects "combine-modules-data"
      (normalizePath "./src/common.blocks/header/header.json") = true ∧
    "combine-modules-data" ∈ runs (.task "build-html") ∧
    ∀ w ∈ watches,
      globMatches w.glob (normalizePath "./src/common.blocks/header/header.json") = false := by
  decide

/-! ## What the pipelines write -/

theorem matchSegs_pat (q : List Tok) (r : Path) :
    matchSegs [Seg.pat q] r = true ↔ ∃ n, r = [n] ∧ segMatch q n = true := by
  cases r with
  | nil => simp [matchSegs]
  | cons n ns =>
    cases ns with
    | nil => simp [matchSegs]
    | cons m ms => simp [matchSegs]

theorem written_leaf (t : String) (tree : List Path) (fresh : Path → Bool)
    (h1 : runs (.task t) = [t]) (globs : List String) (since : Bool) (stages : List Stage)
    (sig : Signal) (h2 : lookup t registry = some (.body (.stream globs since stages sig))) :
    written t tree fresh = runStages (src globs tree) fresh stages
      (if since then (src globs tree).filter fresh else src globs tree) := by
  simp [written, writtenBy, h1, h2, Body.written]

/-- An aggregator writes nothing when it selects no fragment, and else the one file
`paths.modules.dest` joined with its merged file name. -/
theorem written_aggregator (tree : List Path) (fresh : Path → Bool) :
    ∀ a ∈ aggregators, written a.1 tree fresh =
      if (src (globsOf a.1) tree).isEmpty then []
      else [normalizePath (paths.modules.dest ++ a.2)] := by
  intro a ha
  simp only [aggregators, List.mem_cons, List.mem_singleton, List.not_mem_nil, or_false] at ha
  have h1 : normalizePath paths.modules.dest ++ ["modules.scss".toList]
      = normalizePath (paths.modules.dest ++ "modules.scss") := by decide
  have h2 : normalizePath paths.modules.dest ++ ["modules.js".toList]
      = normalizePath (paths.modules.dest ++ "modules.js") := by decide
  have h3 : normalizePath paths.modules.dest ++ ["modules.json".toList]
      = normalizePath (paths.modules.dest ++ "modules.json") := by decide
  rcases ha with rfl | rfl | rfl
  · rw [written_leaf "combine-modules-styles" tree fresh (by decide) _ _ _ _ rfl]
    have hg : globsOf "combine-modules-styles" = [paths.modules.src ++ "**/[^_]*.scss"] := rfl
    rw [hg]
    simp only [runStages, Stage.run, Bool.false_eq_true, if_false]
    split <;> simp only [List.map_nil, List.map_cons, List.nil_append, List.append_nil, h1]
  · rw [written_leaf "combine-modules-scripts" tree fresh (by decide) _ _ _ _ rfl]
    have hg : globsOf "combine-modules-scripts" = [paths.modules.src ++ "**/[^_]*.js"] := rfl
    rw [hg]
    simp only [runStages, Stage.run, Bool.false_eq_true, if_false]
    split <;> simp only [List.map_nil, List.map_cons, List.nil_append, List.append_nil, h2]
  · rw [written_leaf "combine-modules-data" tree fresh (by decide) _ _ _ _ rfl]
    have hg : globsOf "combine-modules-data" = [paths.modules.src ++ "**/[^_]*.json"] := rfl
    rw [hg]
    simp only [runStages, Stage.run, Bool.false_eq_true, if_false]
    split <;> simp only [List.map_nil, List.map_cons, List.nil_append, List.append_nil, h3]

/-- C9: each aggregator writes, when it has selected a fragment, the one file
`paths.modules.dest` joined with its merged file name, that is `tmp/modules.scss`,
`tmp/modules.js`, `tmp/modules.json`; the second source of `compile-styles` selects
exactly the file `tmp/modules.scss`, and the argument of `getData` in `compile-pages`
names the file `tmp/modules.json`. -/
theorem staging_paths (tree : List Path) (fresh : Path → Bool) :
    (∀ a ∈ aggregators, written a.1 tree fresh =
      if (src (globsOf a.1) tree).isEmpty then []
      else [normalizePath (paths.modules.dest ++ a.2)]) ∧
    aggregators.map (fun a => normalizePath (paths.modules.dest ++ a.2)) =
      [normalizePath "tmp/modules.scss", normalizePath "tmp/modules.js",
       normalizePath "tmp/modules.json"] ∧
    globsOf "compile-styles" = [paths.styles.src, paths.modules.dest ++ "modules.scss"] ∧
    (∀ f, globMatches (paths.modules.dest ++ "modules.scss") f = true ↔
      f = normalizePath (paths.modules.dest ++ "modules.scss")) ∧
    (dataFiles (stagesOf "compile-pages")).map normalizePath =
      [normalizePath (paths.modules.dest ++ "modules.json")] := by
  refine ⟨?_, by decide, rfl, ?_, by decide⟩
  · exact written_aggregator tree fresh
  · intro f
    have hp : parseGlob (paths.modules.dest ++ "modules.scss")
        = [⟨["tmp".toList], [Seg.pat ("modules.scss".toList.map Tok.lit)]⟩] := by decide
    have hn : normalizePath (paths.modules.dest ++ "modules.scss")
        = ["tmp".toList] ++ ["modules.scss".toList] := by decide
    unfold globMatches
    rw [hp, hn]
    simp only [List.any_cons, List.any_nil, Bool.or_false]
    constructor
    · intro h
      obtain ⟨r, hr⟩ := Option.isSome_iff_exists.1 h
      obtain ⟨hf, hm⟩ := (select_eq_some _ f r).1 hr
      obtain ⟨n, hrn, hseg⟩ := (matchSegs_pat _ r).1 hm
      have hmt : matchToks ("modules.scss".toList.map Tok.lit) n = true := by
        unfold segMatch at hseg
        exact (Bool.and_eq_true _ _ ▸ hseg).2
      rw [hf, hrn, (matchToks_lit _ n).1 hmt]
    · intro h
      rw [h]
      decide

theorem staging_paths_witness :
    written "combine-modules-styles" [normalizePath "src/common.blocks/nav/nav.scss"]
      (fun _ => true) = [normalizePath "tmp/modules.scss"] :=
  ((staging_paths [normalizePath "src/common.blocks/nav/nav.scss"] (fun _ => true)).1
    ("combine-modules-styles", "modules.scss") (by decide)).trans (by decide)

end Gulpfile
